import Mathlib

/-!
Verification of the diff-hunk extraction and per-bug aggregation pipeline of
`notebooks/utils_diff.py` (functions `get_line_numbers`, `get_hunks`,
`iterate_over`, `compute_diff_per_file`, `compute_diff_per_bug`).

The Python code is shallowly embedded: text is `List Char`, Python string
operations (`split`, `rstrip`, `splitlines`, `startswith`, `replace`, `int`,
`find`, slicing) are modelled as executable Lean functions on character lists,
the line loop of `get_hunks` is a fold of an explicit step function over the
split lines, and exceptions (IndexError / ValueError from a malformed `@@`
header, a missing or unparseable `metadata.json`) are modelled by `Option`:
`none` is a raised exception that propagates out of the surrounding calls.
The filesystem is modelled by in-memory association lists: a directory is a
list of (filename, file content) pairs, and reading a file is a lookup.
-/

/-- Python `str.isspace` for the characters `str.rstrip` removes:
space, tab, newline, carriage return, vertical tab, form feed. -/
def pyIsSpace (c : Char) : Bool :=
  c = ' ' || c = '\t' || c = '\n' || c = '\r' || c = '\x0b' || c = '\x0c'

/-- Python `line.rstrip()`: drop trailing whitespace characters. -/
def pyRstrip (l : List Char) : List Char :=
  (l.reverse.dropWhile pyIsSpace).reverse

/-- Python `s.strip()`: drop leading and trailing whitespace characters. -/
def pyStrip (l : List Char) : List Char :=
  pyRstrip (l.dropWhile pyIsSpace)

/-- Python `s.split(sep)` for a one-character separator `sep`: split at every
occurrence of the separator, keeping empty pieces; the result is never empty.
For example `"a\n".split("\n") = ["a", ""]` and `"".split("\n") = [""]`. -/
def pySplit (sep : Char) : List Char → List (List Char)
  | [] => [[]]
  | c :: cs =>
    if c = sep then [] :: pySplit sep cs
    else (c :: (pySplit sep cs).headD []) :: (pySplit sep cs).tail

/-- Python `s.splitlines(False)` restricted to `\n`-separated text (the file
contents handled by the pipeline): like `s.split("\n")` but a trailing
newline does not produce a final empty piece, and `"".splitlines() = []`. -/
def pySplitlines (s : List Char) : List (List Char) :=
  if s = [] then []
  else if s.getLast? = some '\n' then (pySplit '\n' s).dropLast
  else pySplit '\n' s

/-- Python `s.startswith(p)`: `p` is a prefix of `s` (first argument is the
pattern). -/
def startsWithL : List Char → List Char → Bool
  | [], _ => true
  | _ :: _, [] => false
  | p :: ps, c :: cs => p = c && startsWithL ps cs

/-- Decimal digit-string parser: `some` of the value of a nonempty all-digit
string, `none` otherwise. -/
def parseDigits (l : List Char) : Option Nat :=
  if l = [] then none
  else
    l.foldl
      (fun acc c =>
        match acc with
        | none => none
        | some n => if c.isDigit then some (10 * n + (c.toNat - 48)) else none)
      (some 0)

/-- Python `int(s)` on an optionally signed decimal numeral: leading and
trailing whitespace is stripped, then an optional single `+` or `-` sign is
followed by at least one digit; `none` models the `ValueError` raised on any
other input.  (Underscore digit separators and non-ASCII digits, which the
diff pipeline never produces, are not modelled.) -/
def pyInt (cs : List Char) : Option Int :=
  match pyStrip cs with
  | '-' :: rest => (parseDigits rest).map (fun n => -(n : Int))
  | '+' :: rest => (parseDigits rest).map (fun n => (n : Int))
  | l => (parseDigits l).map (fun n => (n : Int))

/-- The literal line `\ No newline at end of file` tested by `get_hunks`. -/
def noNewlineMarker : List Char := "\\ No newline at end of file".data

/-- Embedding of `get_line_numbers(line)` of `utils_diff.py`:
`token = line.split(" ")`, `delete_line_number =
int(token[1].split(",")[0].replace("-", "")) - 1`, `additions_line_number =
int(token[2].split(",")[0]) - 1`.  `none` models the IndexError raised when
`token` has fewer than three entries or the ValueError raised by `int`. -/
def get_line_numbers (line : List Char) : Option (Int × Int) := do
  let token := pySplit ' ' line
  let numbers_old_file ← token.get? 1
  let numbers_new_file ← token.get? 2
  let delete_line_number ←
    pyInt (((pySplit ',' numbers_old_file).headD []).filter (· != '-'))
  let additions_line_number ← pyInt ((pySplit ',' numbers_new_file).headD [])
  return (delete_line_number - 1, additions_line_number - 1)

/-- The four section kinds distinguished by the loop in `get_hunks`. -/
inductive DSection where
  | header
  | unchanged_text
  | add_section
  | del_section
deriving DecidableEq, Repr

/-- One change hunk: the `added` and `deleted` lists of
(line number, line text) pairs built by `get_hunks`. -/
structure Chunk where
  added : List (Int × String)
  deleted : List (Int × String)
deriving DecidableEq, Repr

/-- The loop state of `get_hunks`: the two running counters, the current and
previous section kinds, the chunk being accumulated, and the finished
chunks. (The local `modified_lines` dictionary of the source does not affect
the returned value and is omitted.) -/
structure HState where
  count_deletions : Int
  count_additions : Int
  c_section : DSection
  prev_section : DSection
  chunk : Chunk
  chunks : List Chunk
deriving DecidableEq, Repr

/-- The state of `get_hunks` before its loop: both counters `0`, both section
variables `unchanged_text`, empty chunk, no finished chunks. -/
def initState : HState :=
  { count_deletions := 0
    count_additions := 0
    c_section := .unchanged_text
    prev_section := .unchanged_text
    chunk := ⟨[], []⟩
    chunks := [] }

/-- One iteration of the `for line in lines` loop of `get_hunks`: rstrip the
line, pre-increment both counters, then branch on the line's first
characters exactly as the `if`/`elif` chain of the source does; the final
`prev_section = c_section` assignment of the loop body is folded into each
branch.  `none` models the exception propagating out of
`get_line_numbers` on a malformed `@@` line. -/
def get_hunks_step (s : HState) (raw : List Char) : Option HState :=
  let line := pyRstrip raw
  let cd := s.count_deletions + 1
  let ca := s.count_additions + 1
  if startsWithL ['@', '@'] line then
    match get_line_numbers line with
    | none => none
    | some da =>
      some { count_deletions := da.1
             count_additions := da.2
             c_section := .header
             prev_section := .header
             chunk := ⟨[], []⟩
             chunks := s.chunks }
  else if startsWithL ['-'] line then
    some { count_deletions := cd
           count_additions := ca - 1
           c_section := .del_section
           prev_section := .del_section
           chunk := ⟨s.chunk.added, s.chunk.deleted ++ [(cd, (⟨line.drop 1⟩ : String))]⟩
           chunks := s.chunks }
  else if startsWithL ['+'] line then
    some { count_deletions := cd - 1
           count_additions := ca
           c_section := .add_section
           prev_section := .add_section
           chunk := ⟨s.chunk.added ++ [(ca, (⟨line.drop 1⟩ : String))], s.chunk.deleted⟩
           chunks := s.chunks }
  else if line = noNewlineMarker then
    some { s with
           count_deletions := cd - 1
           count_additions := ca - 1
           prev_section := s.c_section }
  else
    if DSection.unchanged_text ≠ s.prev_section ∧ s.prev_section ≠ DSection.header then
      some { count_deletions := cd
             count_additions := ca
             c_section := .unchanged_text
             prev_section := .unchanged_text
             chunk := ⟨[], []⟩
             chunks := s.chunks ++ [s.chunk] }
    else
      some { count_deletions := cd
             count_additions := ca
             c_section := .unchanged_text
             prev_section := .unchanged_text
             chunk := s.chunk
             chunks := s.chunks }

/-- Embedding of `get_hunks(text_diff)` of `utils_diff.py`: split the text on
newlines, run the loop, and flush the last chunk if it has any added or
deleted line.  `none` models an exception raised on a malformed `@@`
header line. -/
def get_hunks (text_diff : String) : Option (List Chunk) :=
  match (pySplit '\n' text_diff.data).foldlM get_hunks_step initState with
  | none => none
  | some s =>
    if s.chunk.added.length > 0 ∨ s.chunk.deleted.length > 0 then
      some (s.chunks ++ [s.chunk])
    else
      some s.chunks

example : get_line_numbers "@@ -10,3 +12,4 @@".data = some (9, 11) := by decide

example :
    get_hunks "@@ -1,3 +1,3 @@\n x\n-y\n+w\n z" =
      some [⟨[(2, "w")], [(2, "y")]⟩] := by decide

example :
    get_hunks "@@ -1,3 +1,3 @@\n-a\n+b" =
      some [⟨[(1, "b")], [(1, "a")]⟩] := by decide

/-- Invariant propagation along an `Option`-valued left fold: a property of
the state preserved by every successful step holds for the final state. -/
lemma foldlM_option_inv {α σ : Type _} (f : σ → α → Option σ) (P : σ → Prop)
    (hstep : ∀ s a s', P s → f s a = some s' → P s') :
    ∀ (l : List α) (i s : σ), P i → l.foldlM f i = some s → P s := by
  intro l
  induction l with
  | nil =>
    intro i s hi h
    simp only [List.foldlM_nil] at h
    cases h
    exact hi
  | cons a l ih =>
    intro i s hi h
    rw [List.foldlM_cons] at h
    cases hfa : f i a with
    | none => rw [hfa] at h; simp at h
    | some b =>
      rw [hfa] at h
      exact ih b s (hstep i a b hi hfa) (by simpa using h)

/-- The loop invariant behind the no-empty-hunk property: every finished chunk
has an added or a deleted line, and whenever the current or the previous
section is an add or del section the accumulating chunk already has one. -/
def HInv (s : HState) : Prop :=
  (∀ c ∈ s.chunks, c.added ≠ [] ∨ c.deleted ≠ []) ∧
  ((s.c_section = .add_section ∨ s.c_section = .del_section) →
    s.chunk.added ≠ [] ∨ s.chunk.deleted ≠ []) ∧
  ((s.prev_section = .add_section ∨ s.prev_section = .del_section) →
    s.chunk.added ≠ [] ∨ s.chunk.deleted ≠ [])

lemma hinv_step (s : HState) (raw : List Char) (s' : HState)
    (hs : HInv s) (h : get_hunks_step s raw = some s') : HInv s' := by
  obtain ⟨h1, h2, h3⟩ := hs
  simp only [get_hunks_step] at h
  split at h
  · split at h
    · exact absurd h (by simp)
    · cases h
      exact ⟨h1, by simp, by simp⟩
  · split at h
    · cases h
      refine ⟨h1, fun _ => Or.inr (by simp), fun _ => Or.inr (by simp)⟩
    · split at h
      · cases h
        refine ⟨h1, fun _ => Or.inl (by simp), fun _ => Or.inl (by simp)⟩
      · split at h
        · cases h
          exact ⟨h1, h2, h2⟩
        · split at h
          · rename_i hcond
            cases h
            refine ⟨?_, by simp, by simp⟩
            intro c hc
            rcases List.mem_append.mp hc with hc | hc
            · exact h1 c hc
            · have hc' : c = s.chunk := by simpa using hc
              subst hc'
              apply h3
              rcases hcond with ⟨hne, hnh⟩
              cases hps : s.prev_section with
              | header => exact absurd hps hnh
              | unchanged_text => exact absurd hps.symm hne
              | add_section => exact Or.inl rfl
              | del_section => exact Or.inr rfl
          · cases h
            exact ⟨h1, by simp, by simp⟩

/-- C1: for every unified-diff text `D`, every hunk in the list returned by
`get_hunks D` contains at least one added line or at least one deleted line;
`get_hunks` never returns an empty hunk. -/
theorem get_hunks_no_empty_hunk (D : String) (hs : List Chunk)
    (h : get_hunks D = some hs) :
    ∀ c ∈ hs, c.added ≠ [] ∨ c.deleted ≠ [] := by
  unfold get_hunks at h
  cases hfold : (pySplit '\n' D.data).foldlM get_hunks_step initState with
  | none => rw [hfold] at h; exact absurd h (by simp)
  | some s =>
    rw [hfold] at h
    dsimp only at h
    have hi : HInv s :=
      foldlM_option_inv get_hunks_step HInv hinv_step _ initState s
        (by exact ⟨by simp [initState], by simp [initState], by simp [initState]⟩)
        hfold
    by_cases hcond : s.chunk.added.length > 0 ∨ s.chunk.deleted.length > 0
    · rw [if_pos hcond, Option.some.injEq] at h
      subst h
      intro c hc
      rcases List.mem_append.mp hc with hc | hc
      · exact hi.1 c hc
      · have hc' : c = s.chunk := by simpa using hc
        subst hc'
        rcases hcond with hl | hl
        · exact Or.inl (by intro hnil; simp [hnil] at hl)
        · exact Or.inr (by intro hnil; simp [hnil] at hl)
    · rw [if_neg hcond, Option.some.injEq] at h
      subst h
      exact hi.1

/-- Witness for C1 at the diff of the end-to-end scenario of the spec. -/
theorem get_hunks_no_empty_hunk_w :
    (Chunk.mk [(2, "w")] [(2, "y")]).added ≠ [] ∨
      (Chunk.mk [(2, "w")] [(2, "y")]).deleted ≠ [] :=
  get_hunks_no_empty_hunk "@@ -1,3 +1,3 @@\n x\n-y\n+w\n z"
    [Chunk.mk [(2, "w")] [(2, "y")]] (by decide)
    (Chunk.mk [(2, "w")] [(2, "y")]) (by decide)

lemma dropWhile_append_one (p : Char → Bool) (c : Char) (hc : p c = false) :
    ∀ xs : List Char, (xs ++ [c]).dropWhile p = xs.dropWhile p ++ [c] := by
  intro xs
  induction xs with
  | nil => simp [List.dropWhile, hc]
  | cons a xs ih =>
    by_cases hpa : p a = true
    · simp [List.dropWhile, hpa, ih]
    · simp [List.dropWhile, Bool.eq_false_iff.mpr hpa]

/-- Python `rstrip` passes a leading non-whitespace character through. -/
lemma pyRstrip_cons (c : Char) (hc : pyIsSpace c = false) (l : List Char) :
    pyRstrip (c :: l) = c :: pyRstrip l := by
  simp [pyRstrip, dropWhile_append_one pyIsSpace c hc]

lemma pySplit_no_sep (xs : List Char) (h : '\n' ∉ xs) :
    pySplit '\n' xs = [xs] := by
  induction xs with
  | nil => simp [pySplit]
  | cons a xs ih =>
    have ha : a ≠ '\n' := fun hh => h (hh ▸ List.mem_cons_self a xs)
    have ih' := ih (fun hm => h (List.mem_cons_of_mem a hm))
    simp [pySplit, ha, ih']

lemma pySplit_append_sep (xs rest : List Char) (h : '\n' ∉ xs) :
    pySplit '\n' (xs ++ '\n' :: rest) = xs :: pySplit '\n' rest := by
  induction xs with
  | nil => simp [pySplit]
  | cons a xs ih =>
    have ha : a ≠ '\n' := fun hh => h (hh ▸ List.mem_cons_self a xs)
    have ih' := ih (fun hm => h (List.mem_cons_of_mem a hm))
    simp [pySplit, ha, ih']

/-- Step evaluation on a `@@` header line that parses. -/
lemma step_header (s : HState) (raw : List Char) (x y : Int)
    (hsw : startsWithL ['@', '@'] (pyRstrip raw) = true)
    (hg : get_line_numbers (pyRstrip raw) = some (x, y)) :
    get_hunks_step s raw =
      some ⟨x, y, .header, .header, ⟨[], []⟩, s.chunks⟩ := by
  simp [get_hunks_step, hsw, hg]

/-- Step evaluation on a deletion line (rstripped form `-t`). -/
lemma step_del (s : HState) (raw t : List Char)
    (hr : pyRstrip raw = '-' :: t) :
    get_hunks_step s raw =
      some ⟨s.count_deletions + 1, s.count_additions, .del_section, .del_section,
        ⟨s.chunk.added,
          s.chunk.deleted ++ [(s.count_deletions + 1, (⟨t⟩ : String))]⟩,
        s.chunks⟩ := by
  simp [get_hunks_step, hr, startsWithL]

/-- Step evaluation on an addition line (rstripped form `+t`). -/
lemma step_add (s : HState) (raw t : List Char)
    (hr : pyRstrip raw = '+' :: t) :
    get_hunks_step s raw =
      some ⟨s.count_deletions, s.count_additions + 1, .add_section, .add_section,
        ⟨s.chunk.added ++ [(s.count_additions + 1, (⟨t⟩ : String))],
          s.chunk.deleted⟩,
        s.chunks⟩ := by
  simp [get_hunks_step, hr, startsWithL]

/-- Step evaluation on an unchanged context line. -/
lemma step_context (s : HState) (raw : List Char)
    (h1 : startsWithL ['@', '@'] (pyRstrip raw) = false)
    (h2 : startsWithL ['-'] (pyRstrip raw) = false)
    (h3 : startsWithL ['+'] (pyRstrip raw) = false)
    (h4 : pyRstrip raw ≠ noNewlineMarker) :
    get_hunks_step s raw =
      some
        (if DSection.unchanged_text ≠ s.prev_section ∧ s.prev_section ≠ DSection.header
          then ⟨s.count_deletions + 1, s.count_additions + 1, .unchanged_text,
            .unchanged_text, ⟨[], []⟩, s.chunks ++ [s.chunk]⟩
          else ⟨s.count_deletions + 1, s.count_additions + 1, .unchanged_text,
            .unchanged_text, s.chunk, s.chunks⟩) := by
  by_cases hp :
      DSection.unchanged_text ≠ s.prev_section ∧ s.prev_section ≠ DSection.header
  · rw [if_pos hp]
    simp [get_hunks_step, h1, h2, h3, h4, hp]
  · rw [if_neg hp]
    simp [get_hunks_step, h1, h2, h3, h4, hp]

/-- Unfolding of `get_hunks` through a successful line fold. -/
lemma get_hunks_eq_fold (D : String) (s : HState)
    (hfold : (pySplit '\n' D.data).foldlM get_hunks_step initState = some s) :
    get_hunks D =
      some (if s.chunk.added.length > 0 ∨ s.chunk.deleted.length > 0
        then s.chunks ++ [s.chunk] else s.chunks) := by
  unfold get_hunks
  rw [hfold]
  dsimp only
  by_cases hc : s.chunk.added.length > 0 ∨ s.chunk.deleted.length > 0
  · rw [if_pos hc, if_pos hc]
  · rw [if_neg hc, if_neg hc]

/-- C2: the `@@ -a,b +c,d @@` parser returns the pair `(a - 1, c - 1)` — at
the header `@@ -10,3 +12,4 @@` it returns `(9, 11)` — and after a header
whose parse is `(x, y)` the delete counter is pre-incremented per deletion
line, so two deletion lines directly after the header are recorded with
delete line numbers `x + 1` and `x + 2` (for `x = 10 - 1` these are `10`
and `11`: 1-based, sequential, starting at `a`). -/
theorem get_line_numbers_pre_increment (hdr d1 d2 : List Char) (x y : Int)
    (hh : startsWithL ['@', '@'] (pyRstrip hdr) = true)
    (hg : get_line_numbers (pyRstrip hdr) = some (x, y))
    (hn1 : '\n' ∉ hdr) (hn2 : '\n' ∉ d1) (hn3 : '\n' ∉ d2) :
    get_line_numbers "@@ -10,3 +12,4 @@".data = some (10 - 1, 12 - 1) ∧
    get_hunks ⟨hdr ++ '\n' :: '-' :: (d1 ++ '\n' :: '-' :: d2)⟩ =
      some [⟨[], [(x + 1, (⟨pyRstrip d1⟩ : String)),
                  (x + 2, (⟨pyRstrip d2⟩ : String))]⟩] := by
  constructor
  · decide
  · have hm1 : '\n' ∉ ('-' :: d1) := by simp [hn2]
    have hm2 : '\n' ∉ ('-' :: d2) := by simp [hn3]
    have hlines :
        pySplit '\n'
            ((⟨hdr ++ '\n' :: '-' :: (d1 ++ '\n' :: '-' :: d2)⟩ : String).data) =
          [hdr, '-' :: d1, '-' :: d2] := by
      show pySplit '\n' (hdr ++ '\n' :: '-' :: (d1 ++ '\n' :: '-' :: d2)) = _
      rw [pySplit_append_sep _ _ hn1,
        show ('-' :: (d1 ++ '\n' :: '-' :: d2) : List Char)
            = ('-' :: d1) ++ '\n' :: ('-' :: d2) by simp,
        pySplit_append_sep _ _ hm1, pySplit_no_sep _ hm2]
    have hd1 : pyRstrip ('-' :: d1) = '-' :: pyRstrip d1 :=
      pyRstrip_cons '-' (by decide) d1
    have hd2 : pyRstrip ('-' :: d2) = '-' :: pyRstrip d2 :=
      pyRstrip_cons '-' (by decide) d2
    have e1 : get_hunks_step initState hdr =
        some ⟨x, y, .header, .header, ⟨[], []⟩, []⟩ :=
      step_header initState hdr x y hh hg
    have e2 : get_hunks_step ⟨x, y, .header, .header, ⟨[], []⟩, []⟩ ('-' :: d1) =
        some ⟨x + 1, y, .del_section, .del_section,
          ⟨[], [(x + 1, (⟨pyRstrip d1⟩ : String))]⟩, []⟩ :=
      step_del _ _ _ hd1
    have e3 : get_hunks_step
          ⟨x + 1, y, .del_section, .del_section,
            ⟨[], [(x + 1, (⟨pyRstrip d1⟩ : String))]⟩, []⟩ ('-' :: d2) =
        some ⟨x + 1 + 1, y, .del_section, .del_section,
          ⟨[], [(x + 1, (⟨pyRstrip d1⟩ : String)),
                (x + 1 + 1, (⟨pyRstrip d2⟩ : String))]⟩, []⟩ :=
      step_del _ _ _ hd2
    have hfold :
        (pySplit '\n'
            ((⟨hdr ++ '\n' :: '-' :: (d1 ++ '\n' :: '-' :: d2)⟩ : String).data)
          ).foldlM get_hunks_step initState =
          some ⟨x + 1 + 1, y, .del_section, .del_section,
            ⟨[], [(x + 1, (⟨pyRstrip d1⟩ : String)),
                  (x + 1 + 1, (⟨pyRstrip d2⟩ : String))]⟩, []⟩ := by
      rw [hlines]
      simp only [List.foldlM_cons, List.foldlM_nil, e1, Option.bind_eq_bind,
        Option.some_bind, e2, e3, Option.pure_def]
    rw [get_hunks_eq_fold _ _ hfold]
    have hx : (x : Int) + 1 + 1 = x + 2 := by ring
    simp [hx]

/-- Witness for C2: the header `@@ -10,3 +12,4 @@` followed by the two
deletion lines `-foo` and `-bar` records delete line numbers 10 and 11. -/
theorem get_line_numbers_pre_increment_w :
    get_line_numbers "@@ -10,3 +12,4 @@".data = some (10 - 1, 12 - 1) ∧
    get_hunks ⟨"@@ -10,3 +12,4 @@".data ++ '\n' :: '-' ::
        ("foo".data ++ '\n' :: '-' :: "bar".data)⟩ =
      some [⟨[], [(10, "foo"), (11, "bar")]⟩] :=
  get_line_numbers_pre_increment "@@ -10,3 +12,4 @@".data "foo".data "bar".data
    9 11 (by decide) (by decide) (by decide) (by decide) (by decide)

/-- C3: after a parsed header, a deletion line directly followed by an
addition line (no context between, nothing after) yields exactly one hunk
containing both lines, while a deletion line, one context line, then an
addition line yields exactly two hunks, the first containing the deletion
and the second the addition. -/
theorem get_hunks_boundary (hdr d a ctx : List Char) (x y : Int)
    (hh : startsWithL ['@', '@'] (pyRstrip hdr) = true)
    (hg : get_line_numbers (pyRstrip hdr) = some (x, y))
    (hn1 : '\n' ∉ hdr) (hn2 : '\n' ∉ d) (hn3 : '\n' ∉ a) (hn4 : '\n' ∉ ctx)
    (hc1 : startsWithL ['@', '@'] (pyRstrip ctx) = false)
    (hc2 : startsWithL ['-'] (pyRstrip ctx) = false)
    (hc3 : startsWithL ['+'] (pyRstrip ctx) = false)
    (hc4 : pyRstrip ctx ≠ noNewlineMarker) :
    get_hunks ⟨hdr ++ '\n' :: '-' :: (d ++ '\n' :: '+' :: a)⟩ =
      some [⟨[(y + 1, (⟨pyRstrip a⟩ : String))],
             [(x + 1, (⟨pyRstrip d⟩ : String))]⟩] ∧
    get_hunks ⟨hdr ++ '\n' :: '-' :: (d ++ '\n' :: (ctx ++ '\n' :: '+' :: a))⟩ =
      some [⟨[], [(x + 1, (⟨pyRstrip d⟩ : String))]⟩,
            ⟨[(y + 2, (⟨pyRstrip a⟩ : String))], []⟩] := by
  have hmd : '\n' ∉ ('-' :: d) := by simp [hn2]
  have hma : '\n' ∉ ('+' :: a) := by simp [hn3]
  have hd : pyRstrip ('-' :: d) = '-' :: pyRstrip d :=
    pyRstrip_cons '-' (by decide) d
  have ha : pyRstrip ('+' :: a) = '+' :: pyRstrip a :=
    pyRstrip_cons '+' (by decide) a
  have e1 : get_hunks_step initState hdr =
      some ⟨x, y, .header, .header, ⟨[], []⟩, []⟩ :=
    step_header initState hdr x y hh hg
  have e2 : get_hunks_step ⟨x, y, .header, .header, ⟨[], []⟩, []⟩ ('-' :: d) =
      some ⟨x + 1, y, .del_section, .del_section,
        ⟨[], [(x + 1, (⟨pyRstrip d⟩ : String))]⟩, []⟩ :=
    step_del _ _ _ hd
  constructor
  · have hlines :
        pySplit '\n'
            ((⟨hdr ++ '\n' :: '-' :: (d ++ '\n' :: '+' :: a)⟩ : String).data) =
          [hdr, '-' :: d, '+' :: a] := by
      show pySplit '\n' (hdr ++ '\n' :: '-' :: (d ++ '\n' :: '+' :: a)) = _
      rw [pySplit_append_sep _ _ hn1,
        show ('-' :: (d ++ '\n' :: '+' :: a) : List Char)
            = ('-' :: d) ++ '\n' :: ('+' :: a) by simp,
        pySplit_append_sep _ _ hmd, pySplit_no_sep _ hma]
    have e3 : get_hunks_step
          ⟨x + 1, y, .del_section, .del_section,
            ⟨[], [(x + 1, (⟨pyRstrip d⟩ : String))]⟩, []⟩ ('+' :: a) =
        some ⟨x + 1, y + 1, .add_section, .add_section,
          ⟨[(y + 1, (⟨pyRstrip a⟩ : String))],
            [(x + 1, (⟨pyRstrip d⟩ : String))]⟩, []⟩ :=
      step_add _ _ _ ha
    have hfold :
        (pySplit '\n'
            ((⟨hdr ++ '\n' :: '-' :: (d ++ '\n' :: '+' :: a)⟩ : String).data)
          ).foldlM get_hunks_step initState =
          some ⟨x + 1, y + 1, .add_section, .add_section,
            ⟨[(y + 1, (⟨pyRstrip a⟩ : String))],
              [(x + 1, (⟨pyRstrip d⟩ : String))]⟩, []⟩ := by
      rw [hlines]
      simp only [List.foldlM_cons, List.foldlM_nil, e1, Option.bind_eq_bind,
        Option.some_bind, e2, e3, Option.pure_def]
    rw [get_hunks_eq_fold _ _ hfold]
    simp
  · have hmc : '\n' ∉ ctx := hn4
    have hlines :
        pySplit '\n'
            ((⟨hdr ++ '\n' :: '-' ::
                (d ++ '\n' :: (ctx ++ '\n' :: '+' :: a))⟩ : String).data) =
          [hdr, '-' :: d, ctx, '+' :: a] := by
      show pySplit '\n'
          (hdr ++ '\n' :: '-' :: (d ++ '\n' :: (ctx ++ '\n' :: '+' :: a))) = _
      rw [pySplit_append_sep _ _ hn1,
        show ('-' :: (d ++ '\n' :: (ctx ++ '\n' :: '+' :: a)) : List Char)
            = ('-' :: d) ++ '\n' :: (ctx ++ '\n' :: ('+' :: a)) by simp,
        pySplit_append_sep _ _ hmd, pySplit_append_sep _ _ hmc,
        pySplit_no_sep _ hma]
    have e3 : get_hunks_step
          ⟨x + 1, y, .del_section, .del_section,
            ⟨[], [(x + 1, (⟨pyRstrip d⟩ : String))]⟩, []⟩ ctx =
        some ⟨x + 1 + 1, y + 1, .unchanged_text, .unchanged_text, ⟨[], []⟩,
          [⟨[], [(x + 1, (⟨pyRstrip d⟩ : String))]⟩]⟩ := by
      rw [step_context _ _ hc1 hc2 hc3 hc4]
      simp
    have e4 : get_hunks_step
          ⟨x + 1 + 1, y + 1, .unchanged_text, .unchanged_text, ⟨[], []⟩,
            [⟨[], [(x + 1, (⟨pyRstrip d⟩ : String))]⟩]⟩ ('+' :: a) =
        some ⟨x + 1 + 1, y + 1 + 1, .add_section, .add_section,
          ⟨[(y + 1 + 1, (⟨pyRstrip a⟩ : String))], []⟩,
          [⟨[], [(x + 1, (⟨pyRstrip d⟩ : String))]⟩]⟩ :=
      step_add _ _ _ ha
    have hfold :
        (pySplit '\n'
            ((⟨hdr ++ '\n' :: '-' ::
                (d ++ '\n' :: (ctx ++ '\n' :: '+' :: a))⟩ : String).data)
          ).foldlM get_hunks_step initState =
          some ⟨x + 1 + 1, y + 1 + 1, .add_section, .add_section,
            ⟨[(y + 1 + 1, (⟨pyRstrip a⟩ : String))], []⟩,
            [⟨[], [(x + 1, (⟨pyRstrip d⟩ : String))]⟩]⟩ := by
      rw [hlines]
      simp only [List.foldlM_cons, List.foldlM_nil, e1, Option.bind_eq_bind,
        Option.some_bind, e2, e3, e4, Option.pure_def]
    rw [get_hunks_eq_fold _ _ hfold]
    have hy : (y : Int) + 1 + 1 = y + 2 := by ring
    simp [hy]

/-- Witness for C3: `-aa` directly followed by `+bb` gives one hunk with
both lines; `-aa`, the context line ` cc`, then `+bb` gives two hunks. -/
theorem get_hunks_boundary_w :
    get_hunks ⟨"@@ -1,3 +1,3 @@".data ++ '\n' :: '-' ::
        ("aa".data ++ '\n' :: '+' :: "bb".data)⟩ =
      some [⟨[(1, "bb")], [(1, "aa")]⟩] ∧
    get_hunks ⟨"@@ -1,3 +1,3 @@".data ++ '\n' :: '-' ::
        ("aa".data ++ '\n' :: (" cc".data ++ '\n' :: '+' :: "bb".data))⟩ =
      some [⟨[], [(1, "aa")]⟩, ⟨[(2, "bb")], []⟩] :=
  get_hunks_boundary "@@ -1,3 +1,3 @@".data "aa".data "bb".data " cc".data
    0 0 (by decide) (by decide) (by decide) (by decide) (by decide) (by decide)
    (by decide) (by decide) (by decide) (by decide)

/-- C4: when the last line of the diff text is an addition or deletion line,
the final accumulated chunk is still flushed at end of input: the result is
nonempty and its last hunk records that trailing change line as its last
added (for `+`) or deleted (for `-`) entry. -/
theorem get_hunks_flushes_trailing_change (D : String) (ls : List (List Char))
    (L : List Char) (c : Char) (cs : List Char) (hs : List Chunk)
    (hsplit : pySplit '\n' D.data = ls ++ [L])
    (hline : pyRstrip L = c :: cs)
    (hc : c = '-' ∨ c = '+')
    (hrun : get_hunks D = some hs) :
    hs ≠ [] ∧ ∃ ch, hs.getLast? = some ch ∧ ∃ n : Int,
      (c = '-' → ch.deleted.getLast? = some (n, (⟨cs⟩ : String))) ∧
      (c = '+' → ch.added.getLast? = some (n, (⟨cs⟩ : String))) := by
  unfold get_hunks at hrun
  rw [hsplit, List.foldlM_append] at hrun
  cases hf0 : List.foldlM get_hunks_step initState ls with
  | none => rw [hf0] at hrun; simp at hrun
  | some s0 =>
    rw [hf0] at hrun
    simp only [Option.bind_eq_bind, Option.some_bind, List.foldlM_cons,
      List.foldlM_nil, Option.pure_def, Option.bind_some] at hrun
    rcases hc with rfl | rfl
    · rw [step_del s0 L cs hline] at hrun
      dsimp only at hrun
      rw [if_pos (Or.inr (by simp)), Option.some.injEq] at hrun
      subst hrun
      refine ⟨by simp, _, List.getLast?_concat _, s0.count_deletions + 1, ?_, ?_⟩
      · intro _
        exact List.getLast?_concat _
      · intro habs
        exact absurd habs (by decide)
    · rw [step_add s0 L cs hline] at hrun
      dsimp only at hrun
      rw [if_pos (Or.inl (by simp)), Option.some.injEq] at hrun
      subst hrun
      refine ⟨by simp, _, List.getLast?_concat _, s0.count_additions + 1, ?_, ?_⟩
      · intro habs
        exact absurd habs (by decide)
      · intro _
        exact List.getLast?_concat _

/-- Witness for C4: a diff ending in the addition line `+x` with no trailing
context still yields a final flushed hunk recording `x`. -/
theorem get_hunks_flushes_trailing_change_w :
    ([⟨[(1, "x")], []⟩] : List Chunk) ≠ [] ∧
    ∃ ch, ([⟨[(1, "x")], []⟩] : List Chunk).getLast? = some ch ∧ ∃ n : Int,
      ('+' = '-' → ch.deleted.getLast? = some (n, ("x" : String))) ∧
      ('+' = '+' → ch.added.getLast? = some (n, ("x" : String))) :=
  get_hunks_flushes_trailing_change "@@ -1,1 +1,1 @@\n+x"
    ["@@ -1,1 +1,1 @@".data] "+x".data '+' "x".data [⟨[(1, "x")], []⟩]
    (by decide) (by decide) (Or.inr rfl) (by decide)

/-- C10: a `@@` header can directly follow add/delete lines (concretely,
`@@ -1,1 +1,1 @@`, `-a`, `@@ -5,1 +5,1 @@`, `-b`, where the deleted line
`a` appears in no hunk of the result), and in every such run the header
step resets the pending chunk to empty without appending it: the finished
chunks after the header are exactly the finished chunks before it. -/
theorem get_hunks_header_discards_pending :
    get_hunks "@@ -1,1 +1,1 @@\n-a\n@@ -5,1 +5,1 @@\n-b" =
      some [⟨[], [(5, "b")]⟩] ∧
    ∀ (ls : List (List Char)) (H : List Char) (s : HState) (x y : Int),
      List.foldlM get_hunks_step initState ls = some s →
      (s.prev_section = .add_section ∨ s.prev_section = .del_section) →
      s.chunk ≠ ⟨[], []⟩ →
      startsWithL ['@', '@'] (pyRstrip H) = true →
      get_line_numbers (pyRstrip H) = some (x, y) →
      List.foldlM get_hunks_step initState (ls ++ [H]) =
        some ⟨x, y, .header, .header, ⟨[], []⟩, s.chunks⟩ := by
  constructor
  · decide
  · intro ls H s x y hfold hprev hpend hsw hg
    rw [List.foldlM_append, hfold]
    simp only [Option.bind_eq_bind, Option.some_bind, List.foldlM_cons,
      List.foldlM_nil, Option.pure_def, Option.bind_some]
    exact step_header s H x y hsw hg

/-- Witness for C10 at the run `@@ -1,1 +1,1 @@`, `-a` followed by the header
`@@ -5,1 +5,1 @@`: the pending chunk holding `a` is dropped, not flushed. -/
theorem get_hunks_header_discards_pending_w :
    List.foldlM get_hunks_step initState
        (["@@ -1,1 +1,1 @@".data, "-a".data] ++ ["@@ -5,1 +5,1 @@".data]) =
      some ⟨4, 4, .header, .header, ⟨[], []⟩, []⟩ :=
  get_hunks_header_discards_pending.right
    ["@@ -1,1 +1,1 @@".data, "-a".data] "@@ -5,1 +5,1 @@".data
    ⟨1, 0, .del_section, .del_section, ⟨[], [(1, "a")]⟩, []⟩ 4 4
    (by decide) (Or.inr rfl) (by decide) (by decide) (by decide)

/-- Fuelled longest-common-subsequence of two line sequences (the fuel, an
upper bound on the summed lengths, keeps the recursion structural). -/
def lcsFuel : Nat → List (List Char) → List (List Char) → List (List Char)
  | 0, _, _ => []
  | _ + 1, [], _ => []
  | _ + 1, _ :: _, [] => []
  | fuel + 1, a :: as, b :: bs =>
    if a = b then a :: lcsFuel fuel as bs
    else
      let l1 := lcsFuel fuel (a :: as) bs
      let l2 := lcsFuel fuel as (b :: bs)
      if l2.length ≥ l1.length then l2 else l1

/-- Longest common subsequence of two line sequences. -/
def lcs (a b : List (List Char)) : List (List Char) :=
  lcsFuel (a.length + b.length) a b

/-- Tag the lines of the two sequences against a common subsequence: lines
before the next matched line are deletions (from the first sequence) then
additions (from the second), the matched line is unchanged context. -/
def tagLines : List (List Char) → List (List Char) → List (List Char) →
    List (Char × List Char)
  | [], xs, ys =>
    xs.map (fun l => ('-', l)) ++ ys.map (fun l => ('+', l))
  | m :: ms, xs, ys =>
    (xs.takeWhile (fun l => l != m)).map (fun l => ('-', l)) ++
    (ys.takeWhile (fun l => l != m)).map (fun l => ('+', l)) ++
    [(' ', m)] ++
    tagLines ms ((xs.dropWhile (fun l => l != m)).tail)
      ((ys.dropWhile (fun l => l != m)).tail)

/-- Decimal digits of a natural number. -/
def natChars (n : Nat) : List Char := Nat.toDigits 10 n

/-- Modelled from the spec: `difflib.unified_diff` is Python standard-library
code, not part of this repository; §4.3 of the spec describes it as
computing "a standard unified diff between the before content (as the
sequence of lines, no trailing newline markers) and the after content".
The model computes a longest common subsequence, tags unchanged lines with
a space and deleted/added lines with `-`/`+` (all deletions of a changed
region before its additions, as in the unified format), and, when there is
at least one change, emits a single `@@ -1,b +1,d @@` hunk spanning both
whole sequences — this agrees with the standard generator whenever the
default three context lines join all changes of the file into one hunk, as
in the end-to-end scenario of §8.  The `---`/`+++` preamble, which
`compute_diff_per_file` discards anyway by truncating at the first `@@`,
is not emitted. -/
def unified_diff (a b : List (List Char)) : List (List Char) :=
  let tagged := tagLines (lcs a b) a b
  if tagged.any (fun t => t.1 = '-' || t.1 = '+') then
    ("@@ -1,".data ++ natChars a.length ++ " +1,".data ++
        natChars b.length ++ " @@".data) ::
      tagged.map (fun t => t.1 :: t.2)
  else []

/-- Index of the first occurrence of `@@` in the text, Python `text.find("@@")`
(with `none` for `-1`). -/
def findAtAt : List Char → Option Nat
  | [] => none
  | c :: cs =>
    if startsWithL ['@', '@'] (c :: cs) then some 0
    else (findAtAt cs).map (· + 1)

/-- Python `text_diff[text_diff.find("@@"):]`: drop everything before the
first `@@`; when there is no `@@`, `find` returns `-1` and the slice
`text[-1:]` is the last character of a nonempty text (empty for empty). -/
def truncFromAtAt (s : List Char) : List Char :=
  match findAtAt s with
  | some i => s.drop i
  | none =>
    match s.getLast? with
    | none => []
    | some c => [c]

/-- One row of the per-file report of `compute_diff_per_file`, in the order
of the source dict literal: `n_lines`, `n_hunks`, `filename`, `n_files`,
then the metadata object merged in verbatim. -/
structure FileDiffRecord (M : Type) where
  n_lines : Nat
  n_hunks : Nat
  filename : String
  n_files : Nat
  metadata : M
deriving DecidableEq, Repr

/-- One bug-fix folder of the on-disk layout: the `before/` and `after/`
directories as (filename, file content) association lists, and the parse of
its `metadata.json` — `none` models a missing or unparseable file, whose
read raises. -/
structure BugFolder (M : Type) where
  before : List (String × String)
  after : List (String × String)
  metadata : Option M
deriving DecidableEq, Repr

/-- Embedding of `iterate_over(folder_master, folder_slave)`: the filenames
present in both directories (set intersection by filename only) with both
file contents.  Python iterates the intersection set in unspecified order
and directory listings contain no duplicate names; the model iterates in
the order of the master listing. -/
def iterate_over (folder_master folder_slave : List (String × String)) :
    List (String × String × String) :=
  let files_in_master := folder_master.map Prod.fst
  let files_in_slave := folder_slave.map Prod.fst
  let files_in_common := files_in_master.filter (fun f => files_in_slave.contains f)
  files_in_common.map (fun f =>
    (f, (folder_master.lookup f).getD "", (folder_slave.lookup f).getD ""))

/-- The per-file body of the `compute_diff_per_file` loop: unified diff of
the two contents split into lines, joined with newlines, truncated at the
first `@@`, hunk extraction, the per-hunk `max(len(deleted), len(added))`
sum as the modified-line count, and one emitted record when at least one
hunk was found. -/
def process_file {M : Type} (metadata : M)
    (name content_before content_after : String) :
    Option (List (FileDiffRecord M)) := do
  let text_diff := List.intercalate ['\n']
    (unified_diff (pySplitlines content_before.data)
      (pySplitlines content_after.data))
  let hunks ← get_hunks ⟨truncFromAtAt text_diff⟩
  let n_modified_lines :=
    (hunks.map (fun h => max h.deleted.length h.added.length)).sum
  if hunks.length > 0 then
    return [⟨n_modified_lines, hunks.length, name, 1, metadata⟩]
  else
    return []

/-- Embedding of `compute_diff_per_file(path_repo_folder, repos_subfolders)`:
the directory tree is passed as the list of bug folders of each repo
subfolder; the loop accumulates the reports of every common file of every
bug folder.  `none` models an uncaught exception — an unreadable or
unparseable `metadata.json`, or a malformed diff header — aborting the
whole call (the source has no try/except). -/
def compute_diff_per_file {M : Type}
    (repos_subfolders : List (List (BugFolder M))) :
    Option (List (FileDiffRecord M)) :=
  repos_subfolders.flatten.foldlM
    (fun reports folder => do
      let metadata ← folder.metadata
      (iterate_over folder.before folder.after).foldlM
        (fun reports2 item => do
          let rs ← process_file metadata item.1 item.2.1 item.2.2
          return reports2 ++ rs)
        reports)
    []

example :
    compute_diff_per_file (M := Nat)
        [[⟨[("a.txt", "x\ny\nz\n")], [("a.txt", "x\nw\nz\n")], some 7⟩]] =
      some [⟨1, 1, "a.txt", 1, 7⟩] := by decide

/-- The parse of a `metadata.json`: the four key fields the aggregation
groups on, plus the remaining (string-valued) key/value pairs, all merged
verbatim into each per-file report of the bug folder. -/
structure Metadata where
  human_id : String
  id : String
  project_name : String
  commit_hash : String
  extra : List (String × String)
deriving DecidableEq, Repr

/-- A cell of the tabular report: integer or string. -/
inductive PValue where
  | i (n : Nat)
  | s (v : String)
deriving DecidableEq, Repr

/-- A table row: column name to cell value, in column order. -/
abbrev Row := List (String × PValue)

/-- The DataFrame row of one per-file record: the four report columns
followed by the metadata fields merged in verbatim. -/
def FileDiffRecord.row (r : FileDiffRecord Metadata) : Row :=
  [("n_lines", .i r.n_lines), ("n_hunks", .i r.n_hunks),
   ("filename", .s r.filename), ("n_files", .i r.n_files),
   ("human_id", .s r.metadata.human_id), ("id", .s r.metadata.id),
   ("project_name", .s r.metadata.project_name),
   ("commit_hash", .s r.metadata.commit_hash)] ++
  r.metadata.extra.map (fun p => (p.1, PValue.s p.2))

/-- The composite grouping key of `compute_diff_per_bug`:
`(human_id, id, project_name, commit_hash)`. -/
def bugKey (r : FileDiffRecord Metadata) : String × String × String × String :=
  (r.metadata.human_id, r.metadata.id, r.metadata.project_name,
    r.metadata.commit_hash)

/-- First-occurrence deduplication: the group enumeration order of the
model. -/
def firstKeys {K : Type} [DecidableEq K] : List K → List K
  | [] => []
  | k :: ks => k :: (firstKeys ks).filter (fun k2 => decide (k2 ≠ k))

/-- Embedding of the aggregation of `compute_diff_per_bug`:
`df_reports.groupby(by=["human_id", "id", "project_name", "commit_hash"])
.sum().reset_index()` followed by the derived `comprehensive_id` column.
pandas groupby-sum of the repository's era treats the non-numeric columns
(here `filename` and the extra metadata strings) as nuisance columns and
silently drops them from the aggregate; the grouping keys become the index
and `reset_index` restores them as columns.  pandas orders the groups by
sorted key value; the model enumerates them in first-occurrence order (the
properties proved below do not depend on the group order). -/
def aggregate_per_bug (records : List (FileDiffRecord Metadata)) : List Row :=
  (firstKeys (records.map bugKey)).map (fun k =>
    let grp := records.filter (fun r => decide (bugKey r = k))
    [("human_id", PValue.s k.1), ("id", PValue.s k.2.1),
     ("project_name", PValue.s k.2.2.1), ("commit_hash", PValue.s k.2.2.2),
     ("n_lines", PValue.i (grp.map (fun r => r.n_lines)).sum),
     ("n_hunks", PValue.i (grp.map (fun r => r.n_hunks)).sum),
     ("n_files", PValue.i (grp.map (fun r => r.n_files)).sum),
     ("comprehensive_id", PValue.s (k.1 ++ " (" ++ k.2.1 ++ ")"))])

/-- Embedding of `compute_diff_per_bug(path_repo_folder, repos_subfolders)`:
the per-file report followed by the per-bug aggregation. -/
def compute_diff_per_bug (repos_subfolders : List (List (BugFolder Metadata))) :
    Option (List Row) :=
  (compute_diff_per_file repos_subfolders).map aggregate_per_bug

/-- Metadata shared by the concrete aggregation scenarios below. -/
def meta0 : Metadata := ⟨"h1", "17", "proj", "c0ffee", [("note", "const")]⟩

/-- First per-file record of the two-file aggregation scenario. -/
def recA : FileDiffRecord Metadata := ⟨5, 2, "f1.py", 1, meta0⟩

/-- Second per-file record of the two-file aggregation scenario. -/
def recB : FileDiffRecord Metadata := ⟨3, 1, "f2.py", 1, meta0⟩

lemma mem_firstKeys {K : Type} [DecidableEq K] (l : List K) (k : K) :
    k ∈ firstKeys l ↔ k ∈ l := by
  induction l with
  | nil => simp [firstKeys]
  | cons a l ih =>
    by_cases hk : k = a
    · subst hk; simp [firstKeys]
    · simp [firstKeys, hk, ih]

/-- C5: for a bug folder with `before/a.txt = "x\ny\nz\n"` and
`after/a.txt = "x\nw\nz\n"`, the reporter emits exactly one record for that
file, with one hunk and one modified line (the summed per-hunk
`max(len(deleted), len(added))`). -/
theorem compute_diff_per_file_end_to_end {M : Type} (m : M) :
    compute_diff_per_file
        [[⟨[("a.txt", "x\ny\nz\n")], [("a.txt", "x\nw\nz\n")], some m⟩]] =
      some [⟨1, 1, "a.txt", 1, m⟩] := by
  have hh : get_hunks ⟨truncFromAtAt (List.intercalate ['\n']
      (unified_diff (pySplitlines ("x\ny\nz\n" : String).data)
        (pySplitlines ("x\nw\nz\n" : String).data)))⟩ =
      some [⟨[(2, "w")], [(2, "y")]⟩] := by decide
  have hpf : process_file (M := M) m "a.txt" "x\ny\nz\n" "x\nw\nz\n" =
      some [⟨1, 1, "a.txt", 1, m⟩] := by
    unfold process_file
    dsimp only
    rw [hh]
    rfl
  have hit : iterate_over [("a.txt", "x\ny\nz\n")] [("a.txt", "x\nw\nz\n")] =
      [("a.txt", "x\ny\nz\n", "x\nw\nz\n")] := by decide
  unfold compute_diff_per_file
  simp only [List.flatten, List.append_nil, List.nil_append, List.foldlM_cons,
    List.foldlM_nil, Option.bind_eq_bind, Option.some_bind, Option.pure_def,
    Option.bind_some, hit, hpf]

/-- Witness for C5 with metadata `7`. -/
theorem compute_diff_per_file_end_to_end_w :
    compute_diff_per_file
        [[⟨[("a.txt", "x\ny\nz\n")], [("a.txt", "x\nw\nz\n")], some 7⟩]] =
      some [⟨1, 1, "a.txt", 1, 7⟩] :=
  compute_diff_per_file_end_to_end 7

/-- The aggregated row of the two-record scenario built from `recA`/`recB`. -/
def rowAB : Row :=
  [("human_id", .s "h1"), ("id", .s "17"), ("project_name", .s "proj"),
   ("commit_hash", .s "c0ffee"), ("n_lines", .i 8), ("n_hunks", .i 3),
   ("n_files", .i 2), ("comprehensive_id", .s "h1 (17)")]

/-- C6: every aggregated row carries the strict sums of `n_lines`,
`n_hunks` and `n_files` over the per-file records sharing its composite
`(human_id, id, project_name, commit_hash)` key; in particular two records
of one bug contributing `(n_hunks = 2, n_lines = 5)` and
`(n_hunks = 1, n_lines = 3)` aggregate to
`n_hunks = 3, n_lines = 8, n_files = 2`. -/
theorem compute_diff_per_bug_sums :
    (∀ (records : List (FileDiffRecord Metadata)) (row : Row),
      row ∈ aggregate_per_bug records →
      ∃ k, k ∈ records.map bugKey ∧
        row.lookup "n_lines" = some (.i (((records.filter
          (fun r => decide (bugKey r = k))).map (fun r => r.n_lines)).sum)) ∧
        row.lookup "n_hunks" = some (.i (((records.filter
          (fun r => decide (bugKey r = k))).map (fun r => r.n_hunks)).sum)) ∧
        row.lookup "n_files" = some (.i (((records.filter
          (fun r => decide (bugKey r = k))).map (fun r => r.n_files)).sum))) ∧
    aggregate_per_bug [recA, recB] = [rowAB] := by
  constructor
  · intro records row hrow
    unfold aggregate_per_bug at hrow
    rcases List.mem_map.mp hrow with ⟨k, hk, rfl⟩
    exact ⟨k, (mem_firstKeys _ _).mp hk, rfl, rfl, rfl⟩
  · decide

/-- Witness for C6 at the two-record group of `recA` and `recB`. -/
theorem compute_diff_per_bug_sums_w :
    ∃ k, k ∈ [recA, recB].map bugKey ∧
      rowAB.lookup "n_lines" = some (.i ((([recA, recB].filter
        (fun r => decide (bugKey r = k))).map (fun r => r.n_lines)).sum)) ∧
      rowAB.lookup "n_hunks" = some (.i ((([recA, recB].filter
        (fun r => decide (bugKey r = k))).map (fun r => r.n_hunks)).sum)) ∧
      rowAB.lookup "n_files" = some (.i ((([recA, recB].filter
        (fun r => decide (bugKey r = k))).map (fun r => r.n_files)).sum)) :=
  compute_diff_per_bug_sums.left [recA, recB] rowAB (by decide)

/-- Failure of one step aborts an `Option`-valued left fold over a list
containing its input, whatever the accumulator. -/
lemma foldlM_option_none {α σ : Type _} (g : σ → α → Option σ) (x : α)
    (hx : ∀ acc, g acc x = none) :
    ∀ (l : List α) (i : σ), x ∈ l → l.foldlM g i = none := by
  intro l
  induction l with
  | nil => intro i h; cases h
  | cons a l ih =>
    intro i hmem
    rw [List.foldlM_cons]
    rcases List.mem_cons.mp hmem with rfl | hmem2
    · rw [hx i]; rfl
    · cases hga : g i a with
      | none => rfl
      | some b =>
        simp only [Option.bind_eq_bind, Option.some_bind]
        exact ih b hmem2

/-- Counterexample to C7: with a first bug folder whose `metadata.json` does
not parse and a second, well-formed folder, the whole call returns nothing —
the record the second folder yields on its own is not in any returned
table. -/
theorem compute_diff_per_file_bad_metadata_cex :
    compute_diff_per_file (M := Nat)
        [[⟨[("a.txt", "x\ny\nz\n")], [("a.txt", "x\nw\nz\n")], none⟩,
          ⟨[("a.txt", "x\ny\nz\n")], [("a.txt", "x\nw\nz\n")], some 7⟩]] =
      none ∧
    compute_diff_per_file (M := Nat)
        [[⟨[("a.txt", "x\ny\nz\n")], [("a.txt", "x\nw\nz\n")], some 7⟩]] =
      some [⟨1, 1, "a.txt", 1, 7⟩] :=
  ⟨rfl, rfl⟩

/-- C7 as amended: a missing or unparseable `metadata.json` in any supplied
bug folder makes `compute_diff_per_file` propagate the exception and return
no table at all — records of the other folders included. -/
theorem compute_diff_per_file_bad_metadata_aborts {M : Type}
    (repos_subfolders : List (List (BugFolder M))) (f : BugFolder M)
    (hf : f ∈ repos_subfolders.flatten) (hm : f.metadata = none) :
    compute_diff_per_file repos_subfolders = none := by
  unfold compute_diff_per_file
  exact foldlM_option_none _ f (fun acc => by simp [hm]) _ _ hf

/-- Witness for the amended C7 at a single folder without metadata. -/
theorem compute_diff_per_file_bad_metadata_aborts_w :
    compute_diff_per_file (M := Nat) [[⟨[], [], none⟩]] = none :=
  compute_diff_per_file_bad_metadata_aborts [[⟨[], [], none⟩]]
    ⟨[], [], none⟩ (by simp) rfl

/-- C8: only filenames present in both directories are diffed — every item
of `iterate_over` names a file of both listings, a file present in only one
listing matches no item — and a bug folder with a `before/`-only file
yields no record for it and no error. -/
theorem iterate_over_common_files_only :
    (∀ (master slave : List (String × String)) (t : String × String × String),
      t ∈ iterate_over master slave →
      t.1 ∈ master.map Prod.fst ∧ t.1 ∈ slave.map Prod.fst) ∧
    (∀ (master slave : List (String × String)) (f : String),
      f ∉ slave.map Prod.fst → ∀ t ∈ iterate_over master slave, t.1 ≠ f) ∧
    (∀ (master slave : List (String × String)) (f : String),
      f ∉ master.map Prod.fst → ∀ t ∈ iterate_over master slave, t.1 ≠ f) ∧
    compute_diff_per_file (M := Nat)
        [[⟨[("a.txt", "x\ny\nz\n"), ("only.txt", "u\n")],
           [("a.txt", "x\nw\nz\n")], some 7⟩]] =
      some [⟨1, 1, "a.txt", 1, 7⟩] := by
  have hmain : ∀ (master slave : List (String × String))
      (t : String × String × String), t ∈ iterate_over master slave →
      t.1 ∈ master.map Prod.fst ∧ t.1 ∈ slave.map Prod.fst := by
    intro master slave t ht
    unfold iterate_over at ht
    rcases List.mem_map.mp ht with ⟨f, hf, rfl⟩
    rcases List.mem_filter.mp hf with ⟨hf1, hf2⟩
    exact ⟨hf1, by simpa using hf2⟩
  refine ⟨hmain, ?_, ?_, by decide⟩
  · intro master slave f hf t ht heq
    exact hf (heq ▸ (hmain master slave t ht).2)
  · intro master slave f hf t ht heq
    exact hf (heq ▸ (hmain master slave t ht).1)

/-- Witness for C8 at a pair of one-file directories. -/
theorem iterate_over_common_files_only_w :
    ("a.txt", "1", "2").1 ∈ [("a.txt", "1")].map Prod.fst ∧
    ("a.txt", "1", "2").1 ∈ [("a.txt", "2")].map Prod.fst :=
  iterate_over_common_files_only.left [("a.txt", "1")] [("a.txt", "2")]
    ("a.txt", "1", "2") (by decide)

/-- Counterexample to C9: the per-file rows of `recA` and `recB` both carry
the constant non-numeric metadata column `note = "const"`, yet the single
aggregated row of their group does not contain the column at all — the
constant non-numeric field is not passed through. -/
theorem aggregate_per_bug_drops_metadata_cex :
    (FileDiffRecord.row recA).lookup "note" = some (.s "const") ∧
    (FileDiffRecord.row recB).lookup "note" = some (.s "const") ∧
    aggregate_per_bug [recA, recB] = [rowAB] ∧
    rowAB.lookup "note" = none := by decide

/-- C9 as amended: the aggregated rows hold exactly the four grouping-key
columns (preserved unchanged, not renamed), the three summed numeric
columns and the derived `comprehensive_id` — every other column, numeric
report fields aside, is dropped by the groupby-sum, not passed through. -/
theorem aggregate_per_bug_frame (records : List (FileDiffRecord Metadata))
    (row : Row) (hrow : row ∈ aggregate_per_bug records) :
    row.map Prod.fst =
      ["human_id", "id", "project_name", "commit_hash",
       "n_lines", "n_hunks", "n_files", "comprehensive_id"] ∧
    ∃ k, k ∈ records.map bugKey ∧
      row.lookup "human_id" = some (.s k.1) ∧
      row.lookup "id" = some (.s k.2.1) ∧
      row.lookup "project_name" = some (.s k.2.2.1) ∧
      row.lookup "commit_hash" = some (.s k.2.2.2) := by
  unfold aggregate_per_bug at hrow
  rcases List.mem_map.mp hrow with ⟨k, hk, rfl⟩
  exact ⟨rfl, k, (mem_firstKeys _ _).mp hk, rfl, rfl, rfl, rfl⟩

/-- Witness for the amended C9 at the two-record group of `recA`, `recB`. -/
theorem aggregate_per_bug_frame_w :
    rowAB.map Prod.fst =
      ["human_id", "id", "project_name", "commit_hash",
       "n_lines", "n_hunks", "n_files", "comprehensive_id"] ∧
    ∃ k, k ∈ [recA, recB].map bugKey ∧
      rowAB.lookup "human_id" = some (.s k.1) ∧
      rowAB.lookup "id" = some (.s k.2.1) ∧
      rowAB.lookup "project_name" = some (.s k.2.2.1) ∧
      rowAB.lookup "commit_hash" = some (.s k.2.2.2) :=
  aggregate_per_bug_frame [recA, recB] rowAB (by decide)
